import Mathlib

/-!
Verification of the paper-insight frontend core against its specification.

The definitions below are a shallow embedding of the relevant TypeScript
source:
* the batch-processing coordinator of `src/frontend/src/App.vue`
  (`handleBatchProcess`, `startNextBatch`, `handleProcessingDone`,
  the recovery scan in `onMounted`, and `updatePaperById`);
* the workflow-progress step machine of
  `src/frontend/src/composables/useThumbnailPreview.ts`
  (`WORKFLOW_STEPS`, `handleProgressEvent`);
* the SSE event-stream client of `src/frontend/src/services/api.ts`
  (`parseSSEEvent`, `handleStreamEvent`, the record loop of
  `processPaperStream`, and `getStreamErrorMessage`).

State held in Vue `ref`s is modelled by explicit state records; the
fire-and-forget session spawning is irrelevant to the verified claims and
is dropped; JavaScript `Set` becomes `Finset Nat`, arrays become `List`.
-/

set_option autoImplicit false

namespace PaperInsight

/-! ## Batch Coordinator (src/frontend/src/App.vue) -/

/-- `MAX_CONCURRENT` from App.vue: the concurrency limit of the batch queue. -/
def MAX_CONCURRENT : Nat := 3

/-- The coordinator state held in App.vue refs: the pending queue
`processingQueue`, the in-flight set `processingPaperIds` and the
`batchProcessing` flag.  `admitted` is a ghost log of the ids admitted into
the in-flight set so far, in admission order (the source admits a paper by
inserting it into `processingPaperIds`, which starts its stream session). -/
structure BatchState where
  processingQueue : List Nat
  processingPaperIds : Finset Nat
  batchProcessing : Bool
  admitted : List Nat
deriving DecidableEq

/-- The initial state of the App.vue refs: empty queue, empty in-flight set,
`batchProcessing = false`. -/
def initState : BatchState := ⟨[], ∅, false, []⟩

/-- The `while` loop of `startNextBatch` (App.vue lines 139-145): while the
in-flight set has fewer than `MAX_CONCURRENT` members and the queue is
nonempty, shift the head of the queue and insert it into the in-flight set
(recording the admission in the ghost log). -/
def fillSlots : List Nat → Finset Nat → List Nat → List Nat × Finset Nat × List Nat
  | [], inflight, log => ([], inflight, log)
  | id :: rest, inflight, log =>
    if inflight.card < MAX_CONCURRENT then
      fillSlots rest (insert id inflight) (log ++ [id])
    else (id :: rest, inflight, log)

/-- `startNextBatch` (App.vue lines 137-152): fill the free slots from the
queue; if afterwards nothing is in flight, the batch is complete and the
`batchProcessing` flag is cleared. -/
def startNextBatch (s : BatchState) : BatchState :=
  let r := fillSlots s.processingQueue s.processingPaperIds s.admitted
  if r.2.1.card = 0 then ⟨r.1, r.2.1, false, r.2.2⟩
  else ⟨r.1, r.2.1, s.batchProcessing, r.2.2⟩

/-- `handleProcessingDone` (App.vue lines 154-163): remove the finished id
from the in-flight set and immediately refill from the queue. -/
def handleProcessingDone (paperId : Nat) (s : BatchState) : BatchState :=
  startNextBatch { s with processingPaperIds := s.processingPaperIds.erase paperId }

/-- `handleBatchProcess` (App.vue lines 110-135), with the backend response of
`fetchPendingPaperIds` passed as the `pendingIds` argument: a no-op when a
batch is already running; otherwise set the flag, and — unless the pending
list is empty, in which case the flag is dropped again — seed the queue with
the pending ids, reset the in-flight set and start filling slots. -/
def handleBatchProcess (pendingIds : List Nat) (s : BatchState) : BatchState :=
  if s.batchProcessing then s
  else if pendingIds.length = 0 then { s with batchProcessing := false }
  else
    startNextBatch
      { processingQueue := pendingIds
        processingPaperIds := ∅
        batchProcessing := true
        admitted := [] }

/-- The two coordinator entry points the environment can drive: seeding a
batch (`handleBatchProcess` with the backend's pending-ids response) and a
per-paper completion callback (`handleProcessingDone`). -/
inductive BatchOp
  | start (ids : List Nat)
  | done (id : Nat)
deriving DecidableEq, Repr

/-- Apply one coordinator entry point to the state. -/
def applyBatchOp (s : BatchState) : BatchOp → BatchState
  | .start ids => handleBatchProcess ids s
  | .done id => handleProcessingDone id s

/-- Run a sequence of coordinator operations from the initial state. -/
def runBatchOps (ops : List BatchOp) : BatchState :=
  ops.foldl applyBatchOp initState

/-- A seed operation carries a duplicate-free id list (completions are
unconstrained). -/
def seedNodup : BatchOp → Prop
  | .start ids => ids.Nodup
  | .done _ => True

instance : DecidablePred seedNodup := fun op => by
  cases op with
  | start ids => exact List.nodupDecidable ids
  | done id => exact inferInstanceAs (Decidable True)

/-- The coordinator invariant: bounded in-flight set, queue disjoint from the
in-flight set, duplicate-free queue, and the `batchProcessing` flag cleared
exactly when queue and in-flight set are both empty. -/
def BatchInv (s : BatchState) : Prop :=
  s.processingPaperIds.card ≤ MAX_CONCURRENT ∧
  (∀ id ∈ s.processingQueue, id ∉ s.processingPaperIds) ∧
  s.processingQueue.Nodup ∧
  (s.batchProcessing = false ↔ (s.processingQueue = [] ∧ s.processingPaperIds = ∅))

/-! ## Workflow progress steps
(src/frontend/src/composables/useThumbnailPreview.ts) -/

/-- The status of a `ProgressStep` (src/frontend/src/types/paper.ts). -/
inductive StepStatus
  | pending
  | active
  | done
  | error
deriving DecidableEq

/-- A `ProgressStep` (src/frontend/src/types/paper.ts): label, status, and the
optional parallel-group number (`undefined` becomes `none`). -/
structure WStep where
  label : String
  status : StepStatus
  group : Option Nat
deriving DecidableEq

/-- `WORKFLOW_STEPS` (useThumbnailPreview.ts lines 158-166): the fixed pipeline
template, as (label, group) pairs. -/
def WORKFLOW_STEPS : List (String × Option Nat) :=
  [("下载PDF", none),
   ("上传文件", none),
   ("用户输入", none),
   ("Parse File", some 1),
   ("知识检索", some 1),
   ("LLM", none),
   ("整合输出", none)]

/-- JavaScript `Array.prototype.findIndex`, with `none` for `-1`. -/
def findIndex {α : Type} (p : α → Bool) : List α → Option Nat
  | [] => none
  | x :: rest => if p x then some 0 else (findIndex p rest).map (· + 1)

/-- In-place mutation `steps[i].status = st` on a JS array: update the status
of the entry at index `i`, if it exists. -/
def setStatus (l : List WStep) (i : Nat) (st : StepStatus) : List WStep :=
  match l.get? i with
  | some s => l.set i { s with status := st }
  | none => l

/-- Map a function receiving the element index, starting the count at `n`
(models an indexed `for` loop over a JS array). -/
def mapWithIndexFrom (f : Nat → WStep → WStep) : Nat → List WStep → List WStep
  | _, [] => []
  | n, s :: rest => f n s :: mapWithIndexFrom f (n + 1) rest

/-- The `for (let i = 0; i < stepIndex; i++)` loop of the `node_started`
branch (useThumbnailPreview.ts lines 273-277): mark every step strictly
before `i` that has no parallel group as done. -/
def markEarlierUngroupedDone (i : Nat) (l : List WStep) : List WStep :=
  mapWithIndexFrom
    (fun j s => if j < i && s.group.isNone then { s with status := .done } else s)
    0 l

/-- The group-activation `forEach` (useThumbnailPreview.ts lines 283-287 and
306-310): every pending step of parallel group `g` becomes active. -/
def activateGroupPending (g : Nat) (l : List WStep) : List WStep :=
  l.map (fun s =>
    if s.group == some g && s.status == .pending then { s with status := .active } else s)

/-- The `started` branch (useThumbnailPreview.ts lines 247-253): the step list
built from `WORKFLOW_STEPS`, first step active, the rest pending. -/
def initialSteps : List WStep :=
  (WORKFLOW_STEPS.enum).map
    (fun p => ⟨p.2.1, if p.1 = 0 then StepStatus.active else StepStatus.pending, p.2.2⟩)

/-- The `workflow_started` branch (useThumbnailPreview.ts lines 254-261): if
there are at least two steps, mark the first two done. -/
def markFirstTwoDone (steps : List WStep) : List WStep :=
  if 2 ≤ steps.length then setStatus (setStatus steps 0 .done) 1 .done else steps

/-- The matched case of the `node_started` branch (lines 271-288): mark
earlier ungrouped steps done, mark the found step active, and if it belongs to
a parallel group activate the group's pending members. -/
def nodeStartedMatched (steps : List WStep) (stepIndex : Nat) : List WStep :=
  let steps1 := markEarlierUngroupedDone stepIndex steps
  let steps2 := setStatus steps1 stepIndex .active
  match (steps2.get? stepIndex).bind (·.group) with
  | some g => activateGroupPending g steps2
  | none => steps2

/-- The unmatched case of the `node_started` branch (lines 289-314): retire
every active step and activate the next pending step, together with its
group's pending members. -/
def nodeStartedFallback (steps : List WStep) : List WStep :=
  match findIndex (fun s => s.status == .active) steps with
  | none => steps
  | some _ =>
    let steps1 := steps.map
      (fun s => if s.status == .active then { s with status := .done } else s)
    match findIndex (fun s => s.status == .pending) steps1 with
    | none => steps1
    | some nextPending =>
      let steps2 := setStatus steps1 nextPending .active
      match (steps2.get? nextPending).bind (·.group) with
      | some g => activateGroupPending g steps2
      | none => steps2

/-- The `node_started` branch (useThumbnailPreview.ts lines 262-316), given
the node name extracted from `event.message`. -/
def handleNodeStarted (nodeName : String) (steps : List WStep) : List WStep :=
  match findIndex (fun s => s.label == nodeName) steps with
  | some stepIndex => nodeStartedMatched steps stepIndex
  | none => nodeStartedFallback steps

/-- The body of the `node_finished` branch after the step has been marked
done (`steps1`): if the step at `stepIndex` belongs to a parallel group and
every member of that group is now done, activate the next pending ungrouped
step. -/
def nodeFinishedCore (steps1 : List WStep) (stepIndex : Nat) : List WStep :=
  match (steps1.get? stepIndex).bind (·.group) with
  | none => steps1
  | some g =>
    let allGroupDone :=
      (steps1.filter (fun s => s.group == some g)).all (fun s => s.status == .done)
    if allGroupDone then
      match findIndex (fun s => s.status == .pending && s.group.isNone) steps1 with
      | none => steps1
      | some nextPending => setStatus steps1 nextPending .active
    else steps1

/-- The `node_finished` branch (useThumbnailPreview.ts lines 317-346), given
the node name extracted from `event.message`: mark only the matching step
done, then run `nodeFinishedCore`. -/
def handleNodeFinished (nodeName : String) (steps : List WStep) : List WStep :=
  match findIndex (fun s => s.label == nodeName) steps with
  | none => steps
  | some stepIndex => nodeFinishedCore (setStatus steps stepIndex .done) stepIndex

/-- `handleProgressEvent` (useThumbnailPreview.ts lines 246-347), dispatching
on `event.status`.  `nodeName` stands for the node name the source extracts
from `event.message` (the regex capture following 执行节点:/完成节点:, falling
back to the whole message when there is no match). -/
def handleProgressEvent (status : String) (nodeName : String) (steps : List WStep) :
    List WStep :=
  if status == "started" then initialSteps
  else if status == "workflow_started" then markFirstTwoDone steps
  else if status == "node_started" then handleNodeStarted nodeName steps
  else if status == "node_finished" then handleNodeFinished nodeName steps
  else steps

/-! ## Event-stream client (src/frontend/src/services/api.ts) -/

/-- A parsed JSON value, as produced by `JSON.parse` on a `data:` line. -/
inductive Json
  | null
  | bool (b : Bool)
  | num (n : Int)
  | str (s : String)
  | arr (elems : List Json)
  | obj (fields : List (String × Json))

/-- JavaScript truthiness of a parsed JSON value (the `!data` guard in
`processPaperStream`): `null`, `false`, `0` and `""` are falsy; every array
and object is truthy. -/
def jsTruthy : Json → Bool
  | .null => false
  | .bool b => b
  | .num n => n != 0
  | .str s => s != ""
  | .arr _ => true
  | .obj _ => true

mutual

/-- JavaScript string coercion of a JSON value (as in the concatenation
`accumulatedThought + thinkingData.thought`). -/
def jsToString : Json → String
  | .null => "null"
  | .bool b => if b then "true" else "false"
  | .num n => toString n
  | .str s => s
  | .arr elems => jsJoinList elems
  | .obj _ => "[object Object]"

/-- `Array.prototype.join(",")` over JSON elements (`null` joins as `""`). -/
def jsJoinList : List Json → String
  | [] => ""
  | [x] => jsElemString x
  | x :: rest => jsElemString x ++ "," ++ jsJoinList rest

/-- One array element under `join`: `null` becomes the empty string. -/
def jsElemString : Json → String
  | .null => ""
  | v => jsToString v

end

/-- JavaScript property access `d[key]` on a parsed JSON value: `none` stands
for `undefined`. -/
def jsField (d : Json) (key : String) : Option Json :=
  match d with
  | .obj fields => (fields.find? (fun kv => kv.1 == key)).map (·.2)
  | _ => none

/-- The string JavaScript concatenates for `d[key]` (`undefined` prints as
"undefined"). -/
def jsFieldAsString (d : Json) (key : String) : String :=
  match jsField d key with
  | some v => jsToString v
  | none => "undefined"

/-- One callback invocation observable by the consumer of
`processPaperStream` (which callback fired and with which arguments). -/
inductive CbCall
  | progress (d : Json)
  | thinking (chunk accumulated : String)
  | answer (chunk accumulated : String)
  | result (d : Json)
  | error (d : Json)
  | doneEvent

/-- The accumulators threaded through the stream
(`accumulatedThought` / `accumulatedAnswer` in `processPaperStream`). -/
structure StreamAcc where
  accumulatedThought : String
  accumulatedAnswer : String
deriving DecidableEq

/-- `handleStreamEvent` (api.ts lines 502-543): dispatch one parsed record on
its event-type name; `thinking` and `answer` append their chunk to the
respective accumulator; an event type not among the six known ones invokes no
callback. -/
def handleStreamEvent (eventType : String) (data : Json) (acc : StreamAcc) :
    StreamAcc × List CbCall :=
  if eventType == "progress" then (acc, [.progress data])
  else if eventType == "thinking" then
    let chunk := jsFieldAsString data "thought"
    let newThought := acc.accumulatedThought ++ chunk
    ({ acc with accumulatedThought := newThought }, [.thinking chunk newThought])
  else if eventType == "answer" then
    let chunk := jsFieldAsString data "answer"
    let newAnswer := acc.accumulatedAnswer ++ chunk
    ({ acc with accumulatedAnswer := newAnswer }, [.answer chunk newAnswer])
  else if eventType == "result" then (acc, [.result data])
  else if eventType == "error" then (acc, [.error data])
  else if eventType == "done" then (acc, [.doneEvent])
  else (acc, [])

/-- JavaScript `String.prototype.trim` (whitespace stripped from both ends),
written structurally over the character list so that it evaluates. -/
def strTrim (s : String) : String :=
  ⟨((s.data.dropWhile Char.isWhitespace).reverse.dropWhile Char.isWhitespace).reverse⟩

/-- JavaScript `String.prototype.split("\n")`. -/
def splitLines : List Char → List (List Char)
  | [] => [[]]
  | c :: rest =>
    match splitLines rest with
    | [] => [[]]
    | line :: lines =>
      if c = '\n' then [] :: line :: lines else (c :: line) :: lines

/-- JavaScript `String.prototype.startsWith`. -/
def strStartsWith (s pre : String) : Bool :=
  pre.data.isPrefixOf s.data

/-- JavaScript `String.prototype.slice(n)` (drop the first `n` characters). -/
def strDrop (s : String) (n : Nat) : String :=
  ⟨s.data.drop n⟩

/-- The line scan of `parseSSEEvent` (api.ts lines 483-490): fold over the
record's lines, keeping the last `event:` name and the last `data:` payload
string. -/
def sseFields (eventStr : String) : Option String × String :=
  (splitLines (strTrim eventStr).data).foldl
    (fun acc line =>
      if strStartsWith ⟨line⟩ "event:" then (some (strTrim (strDrop ⟨line⟩ 6)), acc.2)
      else if strStartsWith ⟨line⟩ "data:" then (acc.1, strTrim (strDrop ⟨line⟩ 5))
      else acc)
    (none, "")

/-- `parseSSEEvent` (api.ts lines 476-499), parameterised by the `JSON.parse`
partial function `jparse`: an absent/empty data line, or a data line on which
`jparse` fails, yields `(none, none)`; otherwise the event name (possibly
still absent) and the parsed payload. -/
def parseSSEEvent (jparse : String → Option Json) (eventStr : String) :
    Option String × Option Json :=
  let fields := sseFields eventStr
  if fields.2 == "" then (none, none)
  else
    match jparse fields.2 with
    | some d => (fields.1, some d)
    | none => (none, none)

/-- The body of the record loop of `processPaperStream` (api.ts lines
442-457): skip blank records; parse; the guard `if (!eventType || !data)
continue` drops records with an absent or empty event name and records whose
parsed payload is falsy; otherwise dispatch via `handleStreamEvent`. -/
def recordCalls (jparse : String → Option Json) (acc : StreamAcc) (rec : String) :
    StreamAcc × List CbCall :=
  if strTrim rec == "" then (acc, [])
  else
    match parseSSEEvent jparse rec with
    | (some eventType, some d) =>
      if eventType != "" && jsTruthy d then handleStreamEvent eventType d acc
      else (acc, [])
    | _ => (acc, [])

/-- The record loop of `processPaperStream` over a list of complete records,
returning the final accumulators and every callback invocation in order. -/
def processRecords (jparse : String → Option Json) :
    List String → StreamAcc → StreamAcc × List CbCall
  | [], acc => (acc, [])
  | rec :: rest, acc =>
    let p := recordCalls jparse acc rec
    let q := processRecords jparse rest p.1
    (q.1, p.2 ++ q.2)

/-- `StreamErrorEvent` (src/frontend/src/types/paper.ts): error kind and
message. -/
structure StreamErrorEvent where
  error : String
  message : String
deriving DecidableEq

/-- `getStreamErrorMessage` (api.ts lines 548-561): the display message per
error kind, with default `error.message || '未知错误'`. -/
def getStreamErrorMessage (e : StreamErrorEvent) : String :=
  if e.error == "entity_too_large" then "论文内容过长，请尝试手动处理"
  else if e.error == "timeout" then "分析超时，请稍后重试"
  else if e.error == "rate_limit" then "请求过于频繁，请稍后重试"
  else if e.error == "dify_error" then "Dify服务错误: " ++ e.message
  else if e.message == "" then "未知错误"
  else e.message

/-! ## Paper list store and recovery scan (src/frontend/src/App.vue) -/

/-- The fields of a `Paper` record (src/frontend/src/types/paper.ts) that the
verified claims depend on; the remaining payload fields (authors, abstract,
scores, …) are summarised by `title` and play no role in the list logic. -/
structure Paper where
  id : Nat
  title : String
  processing_status : String
  is_processed : Bool
deriving DecidableEq

/-- `updatePaperById` (App.vue lines 193-208), with the record fetched from
the backend passed as `updatedPaper`: overwrite the entry at the id's current
index, or leave the list untouched when the id is absent. -/
def updatePaperById (papers : List Paper) (paperId : Nat) (updatedPaper : Paper) :
    List Paper :=
  match findIndex (fun p => p.id == paperId) papers with
  | some index => papers.set index updatedPaper
  | none => papers

/-- The stuck-paper filter of the recovery scan (App.vue lines 171-173):
papers with `processing_status === "processing"` that are not processed. -/
def stuckPapers (papers : List Paper) : List Paper :=
  papers.filter (fun p => p.processing_status == "processing" && !p.is_processed)

/-- Modelled from the spec: the backend `GET /papers/pending` endpoint (not
part of src/; spec §6: "server resets any stuck `processing` rows to
`pending` as a side effect before returning" the pending ids).  It returns
the ids of every unprocessed paper whose status is `pending` — after the
reset, that is every unprocessed paper that was `pending` or `processing`. -/
def fetchPendingPaperIds (papers : List Paper) : List Nat :=
  (papers.filter (fun p =>
    (p.processing_status == "pending" || p.processing_status == "processing")
      && !p.is_processed)).map (·.id)

/-- The recovery scan of `onMounted` (App.vue lines 165-178): after the
initial load, if some paper is stuck and no batch is running, trigger
`handleBatchProcess` (which seeds the queue with the backend's pending
listing). -/
def recoveryScan (papers : List Paper) (s : BatchState) : BatchState :=
  if 0 < (stuckPapers papers).length && !s.batchProcessing then
    handleBatchProcess (fetchPendingPaperIds papers) s
  else s

/-! ## Batch coordinator lemmas -/

theorem fillSlots_card_le (q : List Nat) :
    ∀ (f : Finset Nat) (log : List Nat), f.card ≤ MAX_CONCURRENT →
      ((fillSlots q f log).2.1).card ≤ MAX_CONCURRENT := by
  induction q with
  | nil => intro f log h; simpa [fillSlots] using h
  | cons id rest ih =>
    intro f log h
    by_cases hc : f.card < MAX_CONCURRENT
    · simp only [fillSlots, hc, if_true]
      exact ih _ _ (le_trans (Finset.card_insert_le id f) (by omega))
    · simpa [fillSlots, hc] using h

theorem fillSlots_subset (q : List Nat) :
    ∀ (f : Finset Nat) (log : List Nat), f ⊆ (fillSlots q f log).2.1 := by
  induction q with
  | nil => intro f log; simp [fillSlots]
  | cons id rest ih =>
    intro f log
    by_cases hc : f.card < MAX_CONCURRENT
    · simp only [fillSlots, hc, if_true]
      exact (Finset.subset_insert id f).trans (ih _ _)
    · simp [fillSlots, hc]

theorem fillSlots_queue_nil (q : List Nat) :
    ∀ (f : Finset Nat) (log : List Nat), ((fillSlots q f log).2.1).card = 0 →
      (fillSlots q f log).1 = [] := by
  induction q with
  | nil => intro f log _; simp [fillSlots]
  | cons id rest ih =>
    intro f log h
    by_cases hc : f.card < MAX_CONCURRENT
    · exfalso
      simp only [fillSlots, hc, if_true] at h
      have hm : id ∈ (fillSlots rest (insert id f) (log ++ [id])).2.1 :=
        fillSlots_subset rest (insert id f) (log ++ [id]) (Finset.mem_insert_self id f)
      rw [Finset.card_eq_zero.mp h] at hm
      exact absurd hm (Finset.not_mem_empty id)
    · exfalso
      simp only [fillSlots, hc, if_false] at h
      simp only [MAX_CONCURRENT] at hc
      omega

theorem fillSlots_conserve (q : List Nat) :
    ∀ (f : Finset Nat) (log : List Nat),
      (fillSlots q f log).2.2 ++ (fillSlots q f log).1 = log ++ q := by
  induction q with
  | nil => intro f log; simp [fillSlots]
  | cons id rest ih =>
    intro f log
    by_cases hc : f.card < MAX_CONCURRENT
    · simp only [fillSlots, hc, if_true]
      rw [ih]; simp
    · simp [fillSlots, hc]

theorem fillSlots_disjoint_nodup (q : List Nat) :
    ∀ (f : Finset Nat) (log : List Nat), (∀ x ∈ q, x ∉ f) → q.Nodup →
      (∀ x ∈ (fillSlots q f log).1, x ∉ (fillSlots q f log).2.1) ∧
        (fillSlots q f log).1.Nodup := by
  induction q with
  | nil => intro f log _ _; simp [fillSlots]
  | cons id rest ih =>
    intro f log hd hn
    obtain ⟨hid, hrest⟩ := List.nodup_cons.mp hn
    by_cases hc : f.card < MAX_CONCURRENT
    · simp only [fillSlots, hc, if_true]
      refine ih _ _ (fun x hx hmem => ?_) hrest
      rcases Finset.mem_insert.mp hmem with h1 | h2
      · exact hid (h1 ▸ hx)
      · exact hd x (List.mem_cons_of_mem _ hx) h2
    · simp only [fillSlots, hc, if_false]
      exact ⟨hd, hn⟩

theorem startNextBatch_conserve (s : BatchState) :
    (startNextBatch s).admitted ++ (startNextBatch s).processingQueue =
      s.admitted ++ s.processingQueue := by
  unfold startNextBatch
  by_cases hc :
      (fillSlots s.processingQueue s.processingPaperIds s.admitted).2.1.card = 0 <;>
    simp [hc, fillSlots_conserve]

theorem batchInv_startNextBatch {s : BatchState}
    (h1 : s.processingPaperIds.card ≤ MAX_CONCURRENT)
    (h2 : ∀ id ∈ s.processingQueue, id ∉ s.processingPaperIds)
    (h3 : s.processingQueue.Nodup)
    (h4 : s.batchProcessing = true ∨
      (s.processingQueue = [] ∧ s.processingPaperIds = ∅)) :
    BatchInv (startNextBatch s) := by
  unfold startNextBatch BatchInv
  by_cases hc :
      (fillSlots s.processingQueue s.processingPaperIds s.admitted).2.1.card = 0
  · have hq := fillSlots_queue_nil s.processingQueue s.processingPaperIds s.admitted hc
    have hf := Finset.card_eq_zero.mp hc
    simp [hc, hq, hf]
  · simp only [hc, if_false]
    refine ⟨fillSlots_card_le _ _ _ h1,
      (fillSlots_disjoint_nodup _ _ _ h2 h3).1,
      (fillSlots_disjoint_nodup _ _ _ h2 h3).2, ?_⟩
    rcases h4 with hb | ⟨hq, hf⟩
    · constructor
      · intro hcontra; rw [hb] at hcontra; exact absurd hcontra (by simp)
      · rintro ⟨-, hempty⟩
        exact absurd (by rw [hempty]; simp) hc
    · exfalso
      apply hc
      rw [hq, hf]
      simp [fillSlots]

theorem batchInv_init : BatchInv initState := by
  refine ⟨by simp [initState, MAX_CONCURRENT], by simp [initState],
    by simp [initState], by simp [initState]⟩

theorem batchInv_done {s : BatchState} (h : BatchInv s) (id : Nat) :
    BatchInv (handleProcessingDone id s) := by
  obtain ⟨h1, h2, h3, h4⟩ := h
  unfold handleProcessingDone
  apply batchInv_startNextBatch
  · exact le_trans Finset.card_erase_le h1
  · exact fun x hx hm => h2 x hx (Finset.mem_of_mem_erase hm)
  · exact h3
  · cases hb : s.batchProcessing with
    | false =>
      obtain ⟨hq, hf⟩ := h4.mp hb
      exact Or.inr ⟨hq, by simp [hf]⟩
    | true => exact Or.inl rfl

theorem batchInv_start {s : BatchState} (h : BatchInv s) {ids : List Nat}
    (hn : ids.Nodup) : BatchInv (handleBatchProcess ids s) := by
  unfold handleBatchProcess
  by_cases hb : s.batchProcessing = true
  · simp only [hb, if_true]
    exact h
  · have hbf : s.batchProcessing = false := by
      cases hx : s.batchProcessing
      · rfl
      · exact absurd hx hb
    obtain ⟨hq, hf⟩ := h.2.2.2.mp hbf
    by_cases hl : ids.length = 0
    · simp only [hb, hbf, if_false, hl, if_true]
      exact ⟨h.1, h.2.1, h.2.2.1, by simp [hq, hf]⟩
    · simp only [hb, hbf, if_false, hl]
      apply batchInv_startNextBatch
      · simp [MAX_CONCURRENT]
      · simp
      · exact hn
      · exact Or.inl rfl

theorem batchInv_run (ops : List BatchOp) :
    ∀ s : BatchState, BatchInv s → (∀ op ∈ ops, seedNodup op) →
      BatchInv (ops.foldl applyBatchOp s) := by
  induction ops with
  | nil => intro s hs _; simpa using hs
  | cons op rest ih =>
    intro s hs hall
    rw [List.foldl_cons]
    refine ih _ ?_ (fun o ho => hall o (List.mem_cons_of_mem _ ho))
    cases op with
    | start ids => exact batchInv_start hs (hall _ (List.mem_cons_self _ _))
    | done id => exact batchInv_done hs id

theorem dones_conserve (ds : List Nat) :
    ∀ s : BatchState, BatchInv s →
      (((ds.map BatchOp.done).foldl applyBatchOp s).admitted ++
          ((ds.map BatchOp.done).foldl applyBatchOp s).processingQueue =
        s.admitted ++ s.processingQueue) ∧
      BatchInv ((ds.map BatchOp.done).foldl applyBatchOp s) := by
  induction ds with
  | nil => intro s hs; exact ⟨rfl, hs⟩
  | cons d rest ih =>
    intro s hs
    rw [List.map_cons, List.foldl_cons]
    obtain ⟨hc, hi⟩ := ih (applyBatchOp s (BatchOp.done d)) (batchInv_done hs d)
    refine ⟨hc.trans ?_, hi⟩
    show (handleProcessingDone d s).admitted ++
        (handleProcessingDone d s).processingQueue =
      s.admitted ++ s.processingQueue
    unfold handleProcessingDone
    rw [startNextBatch_conserve]

/-- C1 counterexample: starting a batch with the duplicate-carrying id list
[1, 2, 3, 4, 1] leaves id 1 simultaneously in the pending queue and in the
in-flight set, refuting the claim for arbitrary seed lists. -/
theorem batch_simultaneous_membership_cex :
    1 ∈ (runBatchOps [BatchOp.start [1, 2, 3, 4, 1]]).processingQueue ∧
    1 ∈ (runBatchOps [BatchOp.start [1, 2, 3, 4, 1]]).processingPaperIds := by
  decide

/-- C1 (amended: every seeded id list is duplicate-free): after any sequence
of batch seedings and completion notifications, the in-flight set never holds
more than `MAX_CONCURRENT` ids, no id is simultaneously in the pending queue
and the in-flight set, and the `batchProcessing` flag is cleared exactly when
both are empty. -/
theorem batch_coordinator_invariants (ops : List BatchOp)
    (h : ∀ op ∈ ops, seedNodup op) :
    (runBatchOps ops).processingPaperIds.card ≤ MAX_CONCURRENT ∧
    (∀ id ∈ (runBatchOps ops).processingQueue,
      id ∉ (runBatchOps ops).processingPaperIds) ∧
    ((runBatchOps ops).batchProcessing = false ↔
      ((runBatchOps ops).processingQueue = [] ∧
        (runBatchOps ops).processingPaperIds = ∅)) := by
  have hinv := batchInv_run ops initState batchInv_init h
  exact ⟨hinv.1, hinv.2.1, hinv.2.2.2⟩

theorem batch_coordinator_invariants_witness :
    (runBatchOps [BatchOp.start [1, 2, 3, 4], BatchOp.done 2]).processingPaperIds.card ≤
      MAX_CONCURRENT ∧
    (∀ id ∈ (runBatchOps [BatchOp.start [1, 2, 3, 4], BatchOp.done 2]).processingQueue,
      id ∉ (runBatchOps [BatchOp.start [1, 2, 3, 4], BatchOp.done 2]).processingPaperIds) ∧
    ((runBatchOps [BatchOp.start [1, 2, 3, 4], BatchOp.done 2]).batchProcessing = false ↔
      ((runBatchOps [BatchOp.start [1, 2, 3, 4], BatchOp.done 2]).processingQueue = [] ∧
        (runBatchOps [BatchOp.start [1, 2, 3, 4], BatchOp.done 2]).processingPaperIds = ∅)) :=
  batch_coordinator_invariants [BatchOp.start [1, 2, 3, 4], BatchOp.done 2] (by decide)

/-- C2: a batch started with a duplicate-free id list admits ids in FIFO
order — at every point the admission log followed by the remaining queue is
exactly the seeded list — the log never holds duplicates, and once the batch
flag clears (all completions arrived) every seeded id has been admitted
exactly once. -/
theorem batch_admission_fifo_exactly_once (ids ds : List Nat) (hn : ids.Nodup) :
    ((runBatchOps (BatchOp.start ids :: ds.map BatchOp.done)).admitted ++
      (runBatchOps (BatchOp.start ids :: ds.map BatchOp.done)).processingQueue = ids) ∧
    (runBatchOps (BatchOp.start ids :: ds.map BatchOp.done)).admitted.Nodup ∧
    ((runBatchOps (BatchOp.start ids :: ds.map BatchOp.done)).batchProcessing = false →
      (runBatchOps (BatchOp.start ids :: ds.map BatchOp.done)).admitted = ids) := by
  have hs1 : BatchInv (handleBatchProcess ids initState) :=
    batchInv_start batchInv_init hn
  have hseed : (handleBatchProcess ids initState).admitted ++
      (handleBatchProcess ids initState).processingQueue = ids := by
    unfold handleBatchProcess
    simp only [initState]
    rw [if_neg (by decide)]
    by_cases hl : ids.length = 0
    · rw [if_pos hl]
      simpa using (List.length_eq_zero.mp hl).symm
    · rw [if_neg hl]
      rw [startNextBatch_conserve]
      simp
  have hrun : runBatchOps (BatchOp.start ids :: ds.map BatchOp.done) =
      (ds.map BatchOp.done).foldl applyBatchOp (handleBatchProcess ids initState) := by
    unfold runBatchOps
    rw [List.foldl_cons]
    rfl
  obtain ⟨hcons, hinv⟩ := dones_conserve ds (handleBatchProcess ids initState) hs1
  rw [hrun]
  have hmain := hcons.trans hseed
  refine ⟨hmain, ?_, ?_⟩
  · exact List.Nodup.of_append_left (hmain ▸ hn)
  · intro hflag
    obtain ⟨hq, -⟩ := hinv.2.2.2.mp hflag
    rw [hq] at hmain
    simpa using hmain

theorem batch_admission_fifo_exactly_once_witness :
    ((runBatchOps (BatchOp.start [5, 6] :: [5, 6].map BatchOp.done)).admitted ++
      (runBatchOps (BatchOp.start [5, 6] :: [5, 6].map BatchOp.done)).processingQueue =
        [5, 6]) ∧
    (runBatchOps (BatchOp.start [5, 6] :: [5, 6].map BatchOp.done)).admitted.Nodup ∧
    ((runBatchOps (BatchOp.start [5, 6] :: [5, 6].map BatchOp.done)).batchProcessing = false →
      (runBatchOps (BatchOp.start [5, 6] :: [5, 6].map BatchOp.done)).admitted = [5, 6]) :=
  batch_admission_fifo_exactly_once [5, 6] [5, 6] (by decide)

/-! ## findIndex and list helper lemmas -/

theorem bool_eq_false {b : Bool} (h : ¬b = true) : b = false := by
  cases b
  · rfl
  · exact absurd rfl h

theorem findIndex_eq_some_get {α : Type} {p : α → Bool} :
    ∀ {l : List α} {i : Nat}, findIndex p l = some i →
      ∃ x, l.get? i = some x ∧ p x = true := by
  intro l
  induction l with
  | nil => intro i h; simp [findIndex] at h
  | cons x rest ih =>
    intro i h
    by_cases hp : p x = true
    · rw [findIndex, if_pos hp] at h
      cases h
      exact ⟨x, rfl, hp⟩
    · rw [findIndex, if_neg hp] at h
      rcases Option.map_eq_some'.mp h with ⟨j, hj, hji⟩
      subst hji
      obtain ⟨y, hy, hpy⟩ := ih hj
      exact ⟨y, by simpa using hy, hpy⟩

theorem findIndex_earlier_false {α : Type} {p : α → Bool} :
    ∀ {l : List α} {i : Nat}, findIndex p l = some i →
      ∀ j, j < i → ∀ x, l.get? j = some x → p x = false := by
  intro l
  induction l with
  | nil => intro i h; simp [findIndex] at h
  | cons x rest ih =>
    intro i h j hj y hy
    by_cases hp : p x = true
    · rw [findIndex, if_pos hp] at h
      cases h
      omega
    · rw [findIndex, if_neg hp] at h
      rcases Option.map_eq_some'.mp h with ⟨i0, hi0, hii⟩
      subst hii
      cases j with
      | zero =>
        cases hy
        exact bool_eq_false hp
      | succ j0 =>
        exact ih hi0 j0 (by omega) y (by simpa using hy)

theorem findIndex_eq_none_forall {α : Type} {p : α → Bool} :
    ∀ {l : List α}, findIndex p l = none → ∀ x ∈ l, p x = false := by
  intro l
  induction l with
  | nil => intro _ x hx; simp at hx
  | cons a rest ih =>
    intro h x hx
    by_cases hp : p a = true
    · rw [findIndex, if_pos hp] at h
      cases h
    · rw [findIndex, if_neg hp] at h
      rcases List.mem_cons.mp hx with rfl | hmem
      · exact bool_eq_false hp
      · exact ih (Option.map_eq_none'.mp h) x hmem

theorem findIndex_lt_length {α : Type} {p : α → Bool} {l : List α} {i : Nat}
    (h : findIndex p l = some i) : i < l.length := by
  obtain ⟨x, hx, -⟩ := findIndex_eq_some_get h
  exact (List.get?_eq_some.mp hx).1

/-! ## Paper list point-update (C6) -/

/-- C6: a point-update overwrites exactly the entry at the id's current index
with the refetched record, leaves every other entry and the list length (and
hence the relative order) unchanged, and is a no-op when the id is absent. -/
theorem updatePaperById_frame (papers : List Paper) (pid : Nat) (updated : Paper) :
    (∀ i, findIndex (fun p => p.id == pid) papers = some i →
      ((updatePaperById papers pid updated).get? i = some updated ∧
       (∀ j, j ≠ i → (updatePaperById papers pid updated).get? j = papers.get? j) ∧
       (updatePaperById papers pid updated).length = papers.length)) ∧
    ((∀ p ∈ papers, p.id ≠ pid) → updatePaperById papers pid updated = papers) := by
  constructor
  · intro i hi
    obtain ⟨x, hx, -⟩ := findIndex_eq_some_get hi
    unfold updatePaperById
    rw [hi]
    refine ⟨?_, ?_, List.length_set _ _ _⟩
    · rw [List.get?_set_eq, hx]
      rfl
    · intro j hj
      exact List.get?_set_ne _ _ (fun hc => hj hc.symm)
  · intro hall
    unfold updatePaperById
    have hnone : findIndex (fun p => p.id == pid) papers = none := by
      cases hf : findIndex (fun p => p.id == pid) papers with
      | none => rfl
      | some i =>
        obtain ⟨x, hx, hpx⟩ := findIndex_eq_some_get hf
        have hmem : x ∈ papers := List.mem_iff_get?.mpr ⟨i, hx⟩
        exact absurd (by simpa using hpx) (hall x hmem)
    rw [hnone]

theorem updatePaperById_frame_witness :
    (updatePaperById [⟨1, "a", "pending", false⟩, ⟨2, "b", "pending", false⟩] 2
        ⟨2, "b", "completed", true⟩).get? 1 = some ⟨2, "b", "completed", true⟩ ∧
    (updatePaperById [⟨1, "a", "pending", false⟩, ⟨2, "b", "pending", false⟩] 2
        ⟨2, "b", "completed", true⟩).get? 0 = some ⟨1, "a", "pending", false⟩ :=
  ⟨((updatePaperById_frame [⟨1, "a", "pending", false⟩, ⟨2, "b", "pending", false⟩] 2
      ⟨2, "b", "completed", true⟩).1 1 (by decide)).1,
   (((updatePaperById_frame [⟨1, "a", "pending", false⟩, ⟨2, "b", "pending", false⟩] 2
      ⟨2, "b", "completed", true⟩).1 1 (by decide)).2.1 0 (by decide)).trans rfl⟩

/-! ## Stream error messages (C8) -/

/-- C8 counterexample: an error event with the unrecognized kind "xyz" and a
nonempty message yields that message, not the fixed generic fallback
"未知错误". -/
theorem stream_error_unknown_kind_cex :
    getStreamErrorMessage ⟨"xyz", "boom"⟩ = "boom" ∧ "boom" ≠ "未知错误" := by
  constructor
  · rfl
  · decide

/-- C8 (amended): the four known kinds map to their fixed display messages
(`dify_error` embedding the event message), and an unrecognized kind yields
the event's own message when nonempty, falling back to "未知错误" only when
the message is empty. -/
theorem getStreamErrorMessage_spec (m k : String)
    (hk : k ∉ ["entity_too_large", "timeout", "rate_limit", "dify_error"]) :
    getStreamErrorMessage ⟨"entity_too_large", m⟩ = "论文内容过长，请尝试手动处理" ∧
    getStreamErrorMessage ⟨"timeout", m⟩ = "分析超时，请稍后重试" ∧
    getStreamErrorMessage ⟨"rate_limit", m⟩ = "请求过于频繁，请稍后重试" ∧
    getStreamErrorMessage ⟨"dify_error", m⟩ = "Dify服务错误: " ++ m ∧
    getStreamErrorMessage ⟨k, m⟩ = (if m = "" then "未知错误" else m) := by
  simp only [List.mem_cons, List.not_mem_nil, not_or, or_false] at hk
  obtain ⟨h1, h2, h3, h4⟩ := hk
  refine ⟨rfl, rfl, rfl, rfl, ?_⟩
  simp only [getStreamErrorMessage, beq_iff_eq]
  rw [if_neg h1, if_neg h2, if_neg h3, if_neg h4]

theorem getStreamErrorMessage_spec_witness :
    getStreamErrorMessage ⟨"xyz", "boom"⟩ = "boom" ∧
    getStreamErrorMessage ⟨"timeout", "boom"⟩ = "分析超时，请稍后重试" :=
  ⟨((getStreamErrorMessage_spec "boom" "xyz" (by decide)).2.2.2.2).trans (by decide),
   (getStreamErrorMessage_spec "boom" "xyz" (by decide)).2.1⟩

/-! ## Recovery scan (C5) -/

/-- C5 counterexample: with one stuck paper (id 1) and one merely-pending
unprocessed paper (id 2), the recovery scan starts a batch seeded with the
backend pending listing [1, 2] — not with exactly the stuck ids [1]. -/
theorem recovery_scan_cex :
    ((recoveryScan [⟨1, "a", "processing", false⟩, ⟨2, "b", "pending", false⟩]
        initState).admitted ++
      (recoveryScan [⟨1, "a", "processing", false⟩, ⟨2, "b", "pending", false⟩]
        initState).processingQueue = [1, 2]) ∧
    (stuckPapers [⟨1, "a", "processing", false⟩, ⟨2, "b", "pending", false⟩]).map
      (·.id) = [1] ∧
    ([1, 2] : List Nat) ≠ [1] := by
  decide

/-- C5 (amended, backend modelled from the spec): when some loaded paper is
stuck and no batch is running, the recovery scan starts a batch seeded with
exactly the backend pending listing — the ids of every unprocessed pending or
stuck paper — which contains every stuck paper's id; when the stuck papers
are the only unprocessed papers of pending status, that seed is exactly the
stuck papers' ids. -/
theorem recovery_scan_spec (papers : List Paper) (s : BatchState)
    (h1 : 0 < (stuckPapers papers).length)
    (h2 : s.batchProcessing = false) :
    ((recoveryScan papers s).admitted ++ (recoveryScan papers s).processingQueue =
      fetchPendingPaperIds papers) ∧
    (∀ p ∈ stuckPapers papers, p.id ∈ fetchPendingPaperIds papers) ∧
    ((∀ p ∈ papers, ¬(p.processing_status = "pending" ∧ p.is_processed = false)) →
      (recoveryScan papers s).admitted ++ (recoveryScan papers s).processingQueue =
        (stuckPapers papers).map (·.id)) := by
  have hstuck_sub : ∀ p ∈ stuckPapers papers, p.id ∈ fetchPendingPaperIds papers := by
    intro p hp
    obtain ⟨hmem, hpred⟩ := List.mem_filter.mp hp
    unfold fetchPendingPaperIds
    apply List.mem_map_of_mem
    apply List.mem_filter.mpr
    refine ⟨hmem, ?_⟩
    simp only [Bool.and_eq_true, Bool.or_eq_true] at hpred ⊢
    exact ⟨Or.inr hpred.1, hpred.2⟩
  have hne : ¬(fetchPendingPaperIds papers).length = 0 := by
    intro hlen
    obtain ⟨p, hp⟩ := List.exists_mem_of_length_pos h1
    have := hstuck_sub p hp
    rw [List.length_eq_zero.mp hlen] at this
    simp at this
  have hscan : recoveryScan papers s =
      handleBatchProcess (fetchPendingPaperIds papers) s := by
    unfold recoveryScan
    rw [if_pos]
    simp [h1, h2]
  have hseed : (recoveryScan papers s).admitted ++
      (recoveryScan papers s).processingQueue = fetchPendingPaperIds papers := by
    rw [hscan]
    unfold handleBatchProcess
    rw [if_neg (by simp [h2]), if_neg hne, startNextBatch_conserve]
    simp
  refine ⟨hseed, hstuck_sub, ?_⟩
  intro hnopending
  rw [hseed]
  have hfilter : papers.filter (fun p =>
      (p.processing_status == "pending" || p.processing_status == "processing")
        && !p.is_processed) =
      papers.filter (fun p => p.processing_status == "processing" && !p.is_processed) := by
    apply List.filter_congr
    intro p hp
    rcases Bool.eq_false_or_eq_true p.is_processed with hb | hb
    · rw [hb]
      simp
    · have hpend : (p.processing_status == "pending") = false := by
        rw [beq_eq_false_iff_ne]
        exact fun hc => hnopending p hp ⟨hc, hb⟩
      rw [hb, hpend]
      simp
  unfold fetchPendingPaperIds stuckPapers
  rw [hfilter]

theorem recovery_scan_spec_witness :
    (recoveryScan [⟨1, "t", "processing", false⟩] initState).admitted ++
      (recoveryScan [⟨1, "t", "processing", false⟩] initState).processingQueue =
      [1] :=
  (((recovery_scan_spec [⟨1, "t", "processing", false⟩] initState (by decide)
      (by decide)).2.2) (by decide)).trans (by decide)

/-! ## Event-stream client lemmas (C7, C9, C10) -/

theorem parseSSEEvent_trim_empty (jparse : String → Option Json) {r : String}
    (h0 : strTrim r = "") : parseSSEEvent jparse r = (none, none) := by
  unfold parseSSEEvent sseFields
  rw [h0]
  rfl

theorem processRecords_append (jparse : String → Option Json) (xs ys : List String) :
    ∀ acc, processRecords jparse (xs ++ ys) acc =
      ((processRecords jparse ys (processRecords jparse xs acc).1).1,
       (processRecords jparse xs acc).2 ++
         (processRecords jparse ys (processRecords jparse xs acc).1).2) := by
  induction xs with
  | nil => intro acc; simp [processRecords]
  | cons r rest ih =>
    intro acc
    simp only [List.cons_append, processRecords, List.append_eq]
    rw [ih]
    simp [List.append_assoc]

theorem processRecords_skip (jparse : String → Option Json) (r : String)
    (hr : ∀ acc, recordCalls jparse acc r = (acc, [])) (pre post : List String)
    (acc : StreamAcc) :
    processRecords jparse (pre ++ r :: post) acc =
      processRecords jparse (pre ++ post) acc := by
  rw [processRecords_append, processRecords_append]
  have hsame : ∀ a, processRecords jparse (r :: post) a = processRecords jparse post a := by
    intro a
    simp only [processRecords, hr a, List.nil_append, Prod.mk.eta]
  rw [hsame]

theorem recordCalls_unparsed (jparse : String → Option Json) {r : String}
    (h : jparse ((sseFields r).2) = none ∨ (sseFields r).2 = "") :
    ∀ acc, recordCalls jparse acc r = (acc, []) := by
  intro acc
  unfold recordCalls
  by_cases ht : (strTrim r == "") = true
  · rw [if_pos ht]
  · rw [if_neg ht]
    have hp : parseSSEEvent jparse r = (none, none) := by
      unfold parseSSEEvent
      by_cases hd : ((sseFields r).2 == "") = true
      · rw [if_pos hd]
      · rw [if_neg hd]
        rcases h with h | h
        · rw [h]
        · exact absurd (by rw [h]; rfl) hd
    rw [hp]

theorem recordCalls_unknown_type (jparse : String → Option Json) {r et : String}
    {d : Json} (hp : parseSSEEvent jparse r = (some et, some d))
    (hu : et ∉ ["progress", "thinking", "answer", "result", "error", "done"]) :
    ∀ acc, recordCalls jparse acc r = (acc, []) := by
  intro acc
  have htrim : ¬(strTrim r == "") = true := by
    intro hc
    have h0 : strTrim r = "" := by simpa using hc
    rw [parseSSEEvent_trim_empty jparse h0] at hp
    simp at hp
  unfold recordCalls
  rw [if_neg htrim, hp]
  show (if et != "" && jsTruthy d then handleStreamEvent et d acc else (acc, [])) =
    (acc, [])
  by_cases hg : (et != "" && jsTruthy d) = true
  · rw [if_pos hg]
    simp only [List.mem_cons, List.not_mem_nil, not_or, or_false] at hu
    obtain ⟨u1, u2, u3, u4, u5, u6⟩ := hu
    unfold handleStreamEvent
    rw [if_neg (by simpa using u1), if_neg (by simpa using u2),
      if_neg (by simpa using u3), if_neg (by simpa using u4),
      if_neg (by simpa using u5), if_neg (by simpa using u6)]
  · rw [if_neg hg]

theorem recordCalls_falsy (jparse : String → Option Json) {r et : String} {d : Json}
    (hp : parseSSEEvent jparse r = (some et, some d)) (hf : jsTruthy d = false) :
    ∀ acc, recordCalls jparse acc r = (acc, []) := by
  intro acc
  have htrim : ¬(strTrim r == "") = true := by
    intro hc
    have h0 : strTrim r = "" := by simpa using hc
    rw [parseSSEEvent_trim_empty jparse h0] at hp
    simp at hp
  unfold recordCalls
  rw [if_neg htrim, hp]
  show (if et != "" && jsTruthy d then handleStreamEvent et d acc else (acc, [])) =
    (acc, [])
  rw [if_neg (by simp [hf])]

/-- C7: a record whose data line fails to parse invokes no callback and the
stream continues with the remaining records unchanged (no error callback
fires); likewise a well-formed record whose event-type name is not among the
six known types invokes no callback. -/
theorem sse_malformed_and_unknown_skipped (jparse : String → Option Json) (r : String) :
    ((sseFields r).2 ≠ "" → jparse ((sseFields r).2) = none →
      ∀ (pre post : List String) (acc : StreamAcc),
        processRecords jparse (pre ++ r :: post) acc =
          processRecords jparse (pre ++ post) acc) ∧
    (∀ (et : String) (d : Json), parseSSEEvent jparse r = (some et, some d) →
      et ∉ ["progress", "thinking", "answer", "result", "error", "done"] →
      ∀ (pre post : List String) (acc : StreamAcc),
        processRecords jparse (pre ++ r :: post) acc =
          processRecords jparse (pre ++ post) acc) := by
  constructor
  · intro _ hj pre post acc
    exact processRecords_skip jparse r (recordCalls_unparsed jparse (Or.inl hj)) pre post acc
  · intro et d hp hu pre post acc
    exact processRecords_skip jparse r (recordCalls_unknown_type jparse hp hu) pre post acc

theorem sse_malformed_and_unknown_skipped_witness :
    (processRecords (fun s => if s = "1" then some (Json.num 1) else none)
        (["event: progress\ndata: 1"] ++ "event: progress\ndata: derp" ::
          ["event: done\ndata: 1"]) ⟨"", ""⟩ =
      processRecords (fun s => if s = "1" then some (Json.num 1) else none)
        (["event: progress\ndata: 1"] ++ ["event: done\ndata: 1"]) ⟨"", ""⟩) ∧
    (processRecords (fun s => if s = "1" then some (Json.num 1) else none)
        (["event: progress\ndata: 1"] ++ "event: custom\ndata: 1" ::
          ["event: done\ndata: 1"]) ⟨"", ""⟩ =
      processRecords (fun s => if s = "1" then some (Json.num 1) else none)
        (["event: progress\ndata: 1"] ++ ["event: done\ndata: 1"]) ⟨"", ""⟩) :=
  ⟨(sse_malformed_and_unknown_skipped (fun s => if s = "1" then some (Json.num 1) else none)
      "event: progress\ndata: derp").1 (by decide) rfl
      ["event: progress\ndata: 1"] ["event: done\ndata: 1"] ⟨"", ""⟩,
   (sse_malformed_and_unknown_skipped (fun s => if s = "1" then some (Json.num 1) else none)
      "event: custom\ndata: 1").2 "custom" (Json.num 1) rfl (by decide)
      ["event: progress\ndata: 1"] ["event: done\ndata: 1"] ⟨"", ""⟩⟩

/-- C10: a well-formed record carrying a known event type whose data line
parses to a falsy JSON value (null, false, 0 or "") invokes no callback — it
is dropped exactly as a malformed record is, because the dispatch guard
requires a truthy payload. -/
theorem sse_falsy_payload_dropped (jparse : String → Option Json) (r et : String)
    (d : Json) (hp : parseSSEEvent jparse r = (some et, some d))
    (_hknown : et ∈ ["progress", "thinking", "answer", "result", "error", "done"])
    (hf : jsTruthy d = false) :
    ∀ (pre post : List String) (acc : StreamAcc),
      processRecords jparse (pre ++ r :: post) acc =
        processRecords jparse (pre ++ post) acc := by
  intro pre post acc
  exact processRecords_skip jparse r (recordCalls_falsy jparse hp hf) pre post acc

theorem sse_falsy_payload_dropped_witness :
    processRecords (fun s => if s = "null" then some Json.null else none)
        (["x"] ++ "event: progress\ndata: null" :: []) ⟨"", ""⟩ =
      processRecords (fun s => if s = "null" then some Json.null else none)
        (["x"] ++ []) ⟨"", ""⟩ :=
  sse_falsy_payload_dropped (fun s => if s = "null" then some Json.null else none)
    "event: progress\ndata: null" "progress" Json.null rfl (by decide) rfl
    ["x"] [] ⟨"", ""⟩

theorem string_join_cons (c : String) (l : List String) :
    String.join (c :: l) = c ++ String.join l := by
  obtain ⟨cd⟩ := c
  simp only [String.join_eq]
  rfl

theorem thinking_chunk_eval (c : String) :
    jsFieldAsString (Json.obj [("thought", Json.str c)]) "thought" = c := by
  simp [jsFieldAsString, jsField, List.find?, jsToString]

theorem thinking_step (a : StreamAcc) (c : String) :
    handleStreamEvent "thinking" (Json.obj [("thought", Json.str c)]) a =
      ({ a with accumulatedThought := a.accumulatedThought ++ c },
       [CbCall.thinking c (a.accumulatedThought ++ c)]) := by
  unfold handleStreamEvent
  rw [if_neg (by decide), if_pos (by decide)]
  rw [thinking_chunk_eval]

/-- C9: over any sequence of `thinking` events, the accumulated thought text
is the concatenation of the delivered chunks in arrival order (pure append:
earlier text is never rewritten); in particular chunks "Hello " and "world"
accumulate to exactly "Hello world". -/
theorem thinking_accumulation (chunks : List String) (acc0 : StreamAcc) :
    ((chunks.foldl (fun a c =>
        (handleStreamEvent "thinking" (Json.obj [("thought", Json.str c)]) a).1)
      acc0).accumulatedThought =
      acc0.accumulatedThought ++ String.join chunks) ∧
    ((["Hello ", "world"].foldl (fun a c =>
        (handleStreamEvent "thinking" (Json.obj [("thought", Json.str c)]) a).1)
      ⟨"", ""⟩).accumulatedThought = "Hello world") := by
  have key : ∀ (cs : List String) (a : StreamAcc),
      (cs.foldl (fun a c =>
          (handleStreamEvent "thinking" (Json.obj [("thought", Json.str c)]) a).1)
        a).accumulatedThought = a.accumulatedThought ++ String.join cs := by
    intro cs
    induction cs with
    | nil =>
      intro a
      show a.accumulatedThought = a.accumulatedThought ++ ""
      rw [String.append_empty]
    | cons c rest ih =>
      intro a
      rw [List.foldl_cons]
      show (List.foldl (fun a c =>
          (handleStreamEvent "thinking" (Json.obj [("thought", Json.str c)]) a).1)
          ((handleStreamEvent "thinking" (Json.obj [("thought", Json.str c)]) a).1)
          rest).accumulatedThought = a.accumulatedThought ++ String.join (c :: rest)
      rw [thinking_step a c, ih]
      show (a.accumulatedThought ++ c) ++ String.join rest =
        a.accumulatedThought ++ String.join (c :: rest)
      rw [string_join_cons, String.append_assoc]
  refine ⟨key chunks acc0, ?_⟩
  rw [key]
  decide

/-! ## Step-machine helper lemmas (C3, C4) -/

theorem length_setStatus (l : List WStep) (i : Nat) (st : StepStatus) :
    (setStatus l i st).length = l.length := by
  unfold setStatus
  cases h : l.get? i
  · rfl
  · simp [List.length_set]

theorem get?_setStatus_self {l : List WStep} {i : Nat} {s : WStep} (st : StepStatus)
    (h : l.get? i = some s) :
    (setStatus l i st).get? i = some { s with status := st } := by
  unfold setStatus
  rw [h]
  show (l.set i { s with status := st }).get? i = some { s with status := st }
  rw [List.get?_set_eq, h]
  rfl

theorem get?_setStatus_ne {l : List WStep} {i : Nat} (st : StepStatus) {j : Nat}
    (h : j ≠ i) : (setStatus l i st).get? j = l.get? j := by
  unfold setStatus
  cases hg : l.get? i
  · rfl
  · exact List.get?_set_ne _ _ (Ne.symm h)

theorem get?_mapWithIndexFrom (f : Nat → WStep → WStep) :
    ∀ (l : List WStep) (n j : Nat),
      (mapWithIndexFrom f n l).get? j = (l.get? j).map (f (n + j)) := by
  intro l
  induction l with
  | nil => intro n j; simp [mapWithIndexFrom]
  | cons s rest ih =>
    intro n j
    cases j with
    | zero => simp [mapWithIndexFrom]
    | succ j0 =>
      show (mapWithIndexFrom f (n + 1) rest).get? j0 = (rest.get? j0).map (f (n + (j0 + 1)))
      rw [ih]
      have harith : n + 1 + j0 = n + (j0 + 1) := by omega
      rw [harith]

theorem length_mapWithIndexFrom (f : Nat → WStep → WStep) :
    ∀ (l : List WStep) (n : Nat), (mapWithIndexFrom f n l).length = l.length := by
  intro l
  induction l with
  | nil => intro n; rfl
  | cons s rest ih =>
    intro n
    show (mapWithIndexFrom f (n + 1) rest).length + 1 = rest.length + 1
    rw [ih]

theorem get?_markEarlier (i : Nat) (l : List WStep) (j : Nat) :
    (markEarlierUngroupedDone i l).get? j =
      (l.get? j).map (fun s =>
        if j < i && s.group.isNone then { s with status := .done } else s) := by
  unfold markEarlierUngroupedDone
  rw [get?_mapWithIndexFrom]
  rw [Nat.zero_add]

theorem findIndex_congr {α : Type} {p : α → Bool} :
    ∀ {l m : List α}, l.length = m.length →
      (∀ j x y, l.get? j = some x → m.get? j = some y → p x = p y) →
      findIndex p l = findIndex p m := by
  intro l
  induction l with
  | nil =>
    intro m hlen _
    cases m
    · rfl
    · simp at hlen
  | cons x rest ih =>
    intro m hlen hpt
    cases m with
    | nil => simp at hlen
    | cons y mrest =>
      have h0 : p x = p y := hpt 0 x y rfl rfl
      have hrec : findIndex p rest = findIndex p mrest := by
        refine ih (by simpa using hlen) ?_
        intro j a b ha hb
        exact hpt (j + 1) a b (by simpa using ha) (by simpa using hb)
      unfold findIndex
      rw [h0, hrec]

theorem handleProgressEvent_started (nodeName : String) (steps : List WStep) :
    handleProgressEvent "started" nodeName steps = initialSteps := by
  unfold handleProgressEvent
  rw [if_pos (by decide)]

theorem handleProgressEvent_node_started (nodeName : String) (steps : List WStep) :
    handleProgressEvent "node_started" nodeName steps =
      handleNodeStarted nodeName steps := by
  unfold handleProgressEvent
  rw [if_neg (by decide), if_neg (by decide), if_pos (by decide)]

theorem handleProgressEvent_node_finished (nodeName : String) (steps : List WStep) :
    handleProgressEvent "node_finished" nodeName steps =
      handleNodeFinished nodeName steps := by
  unfold handleProgressEvent
  rw [if_neg (by decide), if_neg (by decide), if_neg (by decide), if_pos (by decide)]

theorem handleNodeFinished_matched {nodeName : String} {steps : List WStep} {i : Nat}
    (hi : findIndex (fun s => s.label == nodeName) steps = some i) :
    handleNodeFinished nodeName steps = nodeFinishedCore (setStatus steps i .done) i := by
  unfold handleNodeFinished
  rw [hi]

theorem handleNodeStarted_matched {nodeName : String} {steps : List WStep} {i : Nat}
    (hi : findIndex (fun s => s.label == nodeName) steps = some i) :
    handleNodeStarted nodeName steps = nodeStartedMatched steps i := by
  unfold handleNodeStarted
  rw [hi]

theorem nodeFinishedCore_group_none {l : List WStep} {idx : Nat}
    (h : (l.get? idx).bind (·.group) = none) : nodeFinishedCore l idx = l := by
  unfold nodeFinishedCore
  rw [h]

theorem nodeFinishedCore_notAll {l : List WStep} {idx g : Nat}
    (h : (l.get? idx).bind (·.group) = some g)
    (hnot : ¬((l.filter (fun s => s.group == some g)).all
      (fun s => s.status == .done) = true)) :
    nodeFinishedCore l idx = l := by
  unfold nodeFinishedCore
  rw [h]
  show (if (l.filter (fun s => s.group == some g)).all (fun s => s.status == .done) then
      match findIndex (fun s => s.status == .pending && s.group.isNone) l with
      | none => l
      | some k => setStatus l k .active
    else l) = l
  rw [if_neg hnot]

theorem nodeFinishedCore_all_none {l : List WStep} {idx g : Nat}
    (h : (l.get? idx).bind (·.group) = some g)
    (hall : (l.filter (fun s => s.group == some g)).all
      (fun s => s.status == .done) = true)
    (hfk : findIndex (fun s => s.status == .pending && s.group.isNone) l = none) :
    nodeFinishedCore l idx = l := by
  unfold nodeFinishedCore
  rw [h]
  show (if (l.filter (fun s => s.group == some g)).all (fun s => s.status == .done) then
      match findIndex (fun s => s.status == .pending && s.group.isNone) l with
      | none => l
      | some k => setStatus l k .active
    else l) = l
  rw [if_pos hall, hfk]

theorem nodeFinishedCore_all_some {l : List WStep} {idx g k : Nat}
    (h : (l.get? idx).bind (·.group) = some g)
    (hall : (l.filter (fun s => s.group == some g)).all
      (fun s => s.status == .done) = true)
    (hfk : findIndex (fun s => s.status == .pending && s.group.isNone) l = some k) :
    nodeFinishedCore l idx = setStatus l k .active := by
  unfold nodeFinishedCore
  rw [h]
  show (if (l.filter (fun s => s.group == some g)).all (fun s => s.status == .done) then
      match findIndex (fun s => s.status == .pending && s.group.isNone) l with
      | none => l
      | some k => setStatus l k .active
    else l) = setStatus l k .active
  rw [if_pos hall, hfk]

/-- C3: for a `node_finished` event whose node name matches the step at index
`i`, only that step is marked done; every other step keeps its prior status
except possibly one pending ungrouped step that becomes active; grouped
steps other than `i` are never altered; when the finished step has no group
nothing else changes; when it belongs to group `g`, the first pending
ungrouped step becomes active exactly when every member of `g` is done after
the marking; and when an unfinished sibling of the same group remains, every
step other than `i` is unchanged. -/
theorem node_finished_spec (steps : List WStep) (nodeName : String) (i : Nat)
    (s0 : WStep) (hi : findIndex (fun s => s.label == nodeName) steps = some i)
    (hs : steps.get? i = some s0) :
    (handleProgressEvent "node_finished" nodeName steps).length = steps.length ∧
    (handleProgressEvent "node_finished" nodeName steps).get? i =
      some { s0 with status := .done } ∧
    (∀ j, j ≠ i →
      (handleProgressEvent "node_finished" nodeName steps).get? j = steps.get? j ∨
      ∃ s, steps.get? j = some s ∧ s.status = .pending ∧ s.group = none ∧
        (handleProgressEvent "node_finished" nodeName steps).get? j =
          some { s with status := .active }) ∧
    (∀ j s, j ≠ i → steps.get? j = some s → s.group ≠ none →
      (handleProgressEvent "node_finished" nodeName steps).get? j = some s) ∧
    (s0.group = none → ∀ j, j ≠ i →
      (handleProgressEvent "node_finished" nodeName steps).get? j = steps.get? j) ∧
    (∀ g, s0.group = some g →
      ∀ k, findIndex (fun s => s.status == .pending && s.group.isNone) steps = some k →
        (((handleProgressEvent "node_finished" nodeName steps).get? k).map (·.status) =
            some .active ↔
          (∀ j s, steps.get? j = some s → s.group = some g →
            j = i ∨ s.status = .done))) ∧
    (∀ g, s0.group = some g →
      (∃ j s, j ≠ i ∧ steps.get? j = some s ∧ s.group = some g ∧ s.status ≠ .done) →
      ∀ j, j ≠ i →
        (handleProgressEvent "node_finished" nodeName steps).get? j = steps.get? j) := by
  rw [handleProgressEvent_node_finished, handleNodeFinished_matched hi]
  set steps1 := setStatus steps i StepStatus.done with hsteps1def
  have hlen1 : steps1.length = steps.length := length_setStatus steps i .done
  have hget1i : steps1.get? i = some { s0 with status := StepStatus.done } :=
    get?_setStatus_self _ hs
  have hget1j : ∀ j, j ≠ i → steps1.get? j = steps.get? j := fun j hj =>
    get?_setStatus_ne _ hj
  rcases Option.eq_none_or_eq_some s0.group with hg0 | ⟨g0, hg0⟩
  · have hscrut : (steps1.get? i).bind (·.group) = none := by
      rw [hget1i]
      show s0.group = none
      exact hg0
    rw [nodeFinishedCore_group_none hscrut]
    refine ⟨hlen1, hget1i, fun j hj => Or.inl (hget1j j hj),
      fun j s hj hsj _ => (hget1j j hj).trans hsj,
      fun _ j hj => hget1j j hj, ?_, fun g hgeq _ j hj => hget1j j hj⟩
    intro g hgeq
    exact Option.noConfusion (hg0.symm.trans hgeq)
  · have hscrut : (steps1.get? i).bind (·.group) = some g0 := by
      rw [hget1i]
      show s0.group = some g0
      exact hg0
    have hall_iff : ((steps1.filter (fun s => s.group == some g0)).all
        (fun s => s.status == StepStatus.done) = true) ↔
        (∀ j s, steps.get? j = some s → s.group = some g0 →
          j = i ∨ s.status = StepStatus.done) := by
      rw [List.all_eq_true]
      constructor
      · intro hall j s hj hgj
        by_cases hji : j = i
        · exact Or.inl hji
        · refine Or.inr ?_
          have h1j : steps1.get? j = some s := (hget1j j hji).trans hj
          have hmem : s ∈ steps1.filter (fun s => s.group == some g0) :=
            List.mem_filter.mpr ⟨List.mem_iff_get?.mpr ⟨j, h1j⟩, by simp [hgj]⟩
          simpa using hall s hmem
      · intro himp x hxmem
        obtain ⟨hxmem1, hxg⟩ := List.mem_filter.mp hxmem
        obtain ⟨j, hj⟩ := List.mem_iff_get?.mp hxmem1
        by_cases hji : j = i
        · subst hji
          rw [hget1i] at hj
          injection hj with hj2
          subst hj2
          simp
        · have hsj : steps.get? j = some x := (hget1j j hji).symm.trans hj
          rcases himp j x hsj (by simpa using hxg) with h | h
          · exact absurd h hji
          · simp [h]
    have hfi : findIndex (fun s => s.status == StepStatus.pending && s.group.isNone) steps1 =
        findIndex (fun s => s.status == StepStatus.pending && s.group.isNone) steps := by
      apply findIndex_congr hlen1
      intro j x y hx hy
      by_cases hji : j = i
      · subst hji
        rw [hget1i] at hx
        rw [hs] at hy
        injection hx with hx2
        injection hy with hy2
        subst hx2
        subst hy2
        simp [hg0]
      · rw [hget1j j hji] at hx
        rw [hx] at hy
        injection hy with hy2
        subst hy2
        rfl
    by_cases had : (steps1.filter (fun s => s.group == some g0)).all
        (fun s => s.status == StepStatus.done) = true
    · cases hk : findIndex (fun s => s.status == StepStatus.pending && s.group.isNone)
          steps1 with
      | none =>
        rw [nodeFinishedCore_all_none hscrut had hk]
        have hfnone : findIndex (fun s => s.status == StepStatus.pending && s.group.isNone)
            steps = none := hfi.symm.trans hk
        refine ⟨hlen1, hget1i, fun j hj => Or.inl (hget1j j hj),
          fun j s hj hsj _ => (hget1j j hj).trans hsj,
          fun _ j hj => hget1j j hj, ?_, fun g hgeq _ j hj => hget1j j hj⟩
        intro g hgeq k hk2
        rw [hfnone] at hk2
        cases hk2
      | some k =>
        rw [nodeFinishedCore_all_some hscrut had hk]
        obtain ⟨sk, hsk1, hpredk⟩ := findIndex_eq_some_get hk
        have hpk : sk.status = StepStatus.pending ∧ sk.group = none := by
          simpa [Bool.and_eq_true, Option.isNone_iff_eq_none] using hpredk
        have hki : k ≠ i := by
          intro hc
          subst hc
          rw [hget1i] at hsk1
          injection hsk1 with h2
          subst h2
          simp at hpk
        have hskS : steps.get? k = some sk := (hget1j k hki).symm.trans hsk1
        have houtk : (setStatus steps1 k StepStatus.active).get? k =
            some { sk with status := StepStatus.active } := get?_setStatus_self _ hsk1
        have houti : (setStatus steps1 k StepStatus.active).get? i =
            some { s0 with status := StepStatus.done } :=
          (get?_setStatus_ne _ (Ne.symm hki)).trans hget1i
        have houtj : ∀ j, j ≠ i → j ≠ k →
            (setStatus steps1 k StepStatus.active).get? j = steps.get? j := fun j hj hjk =>
          (get?_setStatus_ne _ hjk).trans (hget1j j hj)
        refine ⟨(length_setStatus _ _ _).trans hlen1, houti, ?_, ?_, ?_, ?_, ?_⟩
        · intro j hj
          by_cases hjk : j = k
          · subst hjk
            exact Or.inr ⟨sk, hskS, hpk.1, hpk.2, houtk⟩
          · exact Or.inl (houtj j hj hjk)
        · intro j s hj hsj hgne
          have hjk : j ≠ k := by
            intro hc
            subst hc
            rw [hskS] at hsj
            injection hsj with h2
            subst h2
            exact hgne hpk.2
          exact (houtj j hj hjk).trans hsj
        · intro hc
          exact Option.noConfusion (hc.symm.trans hg0)
        · intro g hgeq k2 hk2
          have hgg : g = g0 := by
            have := hg0.symm.trans hgeq
            injection this with h2
            exact h2.symm
          subst hgg
          have hkk : k2 = k := by
            rw [hfi.symm.trans hk] at hk2
            injection hk2 with h2
            exact h2.symm
          subst hkk
          refine iff_of_true ?_ (hall_iff.mp had)
          rw [houtk]
          rfl
        · intro g hgeq hex j hj
          exfalso
          have hgg : g = g0 := by
            have := hg0.symm.trans hgeq
            injection this with h2
            exact h2.symm
          subst hgg
          obtain ⟨j2, s2, hj2, hs2, hg2, hnd2⟩ := hex
          rcases hall_iff.mp had j2 s2 hs2 hg2 with h | h
          · exact hj2 h
          · exact hnd2 h
    · rw [nodeFinishedCore_notAll hscrut had]
      refine ⟨hlen1, hget1i, fun j hj => Or.inl (hget1j j hj),
        fun j s hj hsj _ => (hget1j j hj).trans hsj,
        fun _ j hj => hget1j j hj, ?_, fun g hgeq _ j hj => hget1j j hj⟩
      intro g hgeq k hk2
      have hgg : g = g0 := by
        have := hg0.symm.trans hgeq
        injection this with h2
        exact h2.symm
      subst hgg
      obtain ⟨sk, hskS, hpredk⟩ := findIndex_eq_some_get hk2
      have hpk : sk.status = StepStatus.pending ∧ sk.group = none := by
        simpa [Bool.and_eq_true, Option.isNone_iff_eq_none] using hpredk
      have hki : k ≠ i := by
        intro hc
        subst hc
        rw [hs] at hskS
        injection hskS with h2
        subst h2
        rw [hg0] at hpk
        simp at hpk
      have hLHS : (steps1.get? k).map (·.status) = some sk.status := by
        rw [hget1j k hki, hskS]
        rfl
      constructor
      · intro hact
        rw [hLHS, hpk.1] at hact
        injection hact with h2
        cases h2
      · intro himp
        exact absurd (hall_iff.mpr himp) had

theorem node_finished_spec_witness :
    (handleProgressEvent "node_finished" "B"
        [⟨"A", .done, none⟩, ⟨"B", .active, some 1⟩, ⟨"C", .active, some 1⟩,
         ⟨"D", .pending, none⟩]).get? 1 = some ⟨"B", .done, some 1⟩ ∧
    (handleProgressEvent "node_finished" "B"
        [⟨"A", .done, none⟩, ⟨"B", .active, some 1⟩, ⟨"C", .active, some 1⟩,
         ⟨"D", .pending, none⟩]).get? 2 = some ⟨"C", .active, some 1⟩ :=
  ⟨(node_finished_spec [⟨"A", .done, none⟩, ⟨"B", .active, some 1⟩,
      ⟨"C", .active, some 1⟩, ⟨"D", .pending, none⟩] "B" 1 ⟨"B", .active, some 1⟩
      (by decide) (by decide)).2.1,
   (node_finished_spec [⟨"A", .done, none⟩, ⟨"B", .active, some 1⟩,
      ⟨"C", .active, some 1⟩, ⟨"D", .pending, none⟩] "B" 1 ⟨"B", .active, some 1⟩
      (by decide) (by decide)).2.2.2.1 2 ⟨"C", .active, some 1⟩ (by decide) (by decide)
      (by decide)⟩

theorem nodeStartedMatched_group_none {steps : List WStep} {i : Nat}
    (h : ((setStatus (markEarlierUngroupedDone i steps) i StepStatus.active).get? i).bind
      (·.group) = none) :
    nodeStartedMatched steps i =
      setStatus (markEarlierUngroupedDone i steps) i StepStatus.active := by
  unfold nodeStartedMatched
  show (match ((setStatus (markEarlierUngroupedDone i steps) i StepStatus.active).get?
          i).bind (·.group) with
      | some g => activateGroupPending g
          (setStatus (markEarlierUngroupedDone i steps) i StepStatus.active)
      | none => setStatus (markEarlierUngroupedDone i steps) i StepStatus.active) =
    setStatus (markEarlierUngroupedDone i steps) i StepStatus.active
  rw [h]

theorem nodeStartedMatched_group_some {steps : List WStep} {i g : Nat}
    (h : ((setStatus (markEarlierUngroupedDone i steps) i StepStatus.active).get? i).bind
      (·.group) = some g) :
    nodeStartedMatched steps i =
      activateGroupPending g
        (setStatus (markEarlierUngroupedDone i steps) i StepStatus.active) := by
  unfold nodeStartedMatched
  show (match ((setStatus (markEarlierUngroupedDone i steps) i StepStatus.active).get?
          i).bind (·.group) with
      | some g => activateGroupPending g
          (setStatus (markEarlierUngroupedDone i steps) i StepStatus.active)
      | none => setStatus (markEarlierUngroupedDone i steps) i StepStatus.active) =
    activateGroupPending g
      (setStatus (markEarlierUngroupedDone i steps) i StepStatus.active)
  rw [h]

/-- C4: a `started` event initialises the step list from the fixed template
with the first step active and the rest pending; a `node_started` event whose
node name matches the step at index `i` marks every strictly-earlier
ungrouped step done, marks step `i` active, activates every other pending
member of step `i`'s parallel group, leaves strictly-earlier grouped steps
un-done (they keep their status or become active), and changes nothing
else. -/
theorem node_started_spec (steps : List WStep) (nodeName : String) (i : Nat)
    (s0 : WStep) (hi : findIndex (fun s => s.label == nodeName) steps = some i)
    (hs : steps.get? i = some s0) :
    (∀ (n : String) (l : List WStep), handleProgressEvent "started" n l =
      [⟨"下载PDF", .active, none⟩, ⟨"上传文件", .pending, none⟩,
       ⟨"用户输入", .pending, none⟩, ⟨"Parse File", .pending, some 1⟩,
       ⟨"知识检索", .pending, some 1⟩, ⟨"LLM", .pending, none⟩,
       ⟨"整合输出", .pending, none⟩]) ∧
    (handleProgressEvent "node_started" nodeName steps).length = steps.length ∧
    (handleProgressEvent "node_started" nodeName steps).get? i =
      some { s0 with status := .active } ∧
    (∀ j s, j < i → steps.get? j = some s → s.group = none →
      (handleProgressEvent "node_started" nodeName steps).get? j =
        some { s with status := .done }) ∧
    (∀ j s g, j ≠ i → s0.group = some g → steps.get? j = some s → s.group = some g →
      s.status = .pending →
      (handleProgressEvent "node_started" nodeName steps).get? j =
        some { s with status := .active }) ∧
    (∀ j s, j < i → steps.get? j = some s → s.group ≠ none →
      (handleProgressEvent "node_started" nodeName steps).get? j = some s ∨
      (handleProgressEvent "node_started" nodeName steps).get? j =
        some { s with status := .active }) ∧
    (∀ j s, j ≠ i → steps.get? j = some s → ¬(j < i ∧ s.group = none) →
      ¬(s0.group ≠ none ∧ s.group = s0.group ∧ s.status = .pending) →
      (handleProgressEvent "node_started" nodeName steps).get? j = some s) := by
  have hstarted : ∀ (n : String) (l : List WStep), handleProgressEvent "started" n l =
      [⟨"下载PDF", .active, none⟩, ⟨"上传文件", .pending, none⟩,
       ⟨"用户输入", .pending, none⟩, ⟨"Parse File", .pending, some 1⟩,
       ⟨"知识检索", .pending, some 1⟩, ⟨"LLM", .pending, none⟩,
       ⟨"整合输出", .pending, none⟩] := by
    intro n l
    rw [handleProgressEvent_started]
    decide
  rw [handleProgressEvent_node_started, handleNodeStarted_matched hi]
  have hlen : (setStatus (markEarlierUngroupedDone i steps) i StepStatus.active).length =
      steps.length :=
    (length_setStatus _ _ _).trans (length_mapWithIndexFrom _ steps 0)
  have hmi : (markEarlierUngroupedDone i steps).get? i = some s0 := by
    rw [get?_markEarlier, hs]
    simp
  have hm2i : (setStatus (markEarlierUngroupedDone i steps) i StepStatus.active).get? i =
      some { s0 with status := StepStatus.active } := get?_setStatus_self _ hmi
  have hmark_none : ∀ j s, j < i → steps.get? j = some s → s.group = none →
      (markEarlierUngroupedDone i steps).get? j =
        some { s with status := StepStatus.done } := by
    intro j s hlt hsj hgn
    rw [get?_markEarlier, hsj]
    simp [hlt, hgn]
  have hmark_keep : ∀ j s, steps.get? j = some s → ¬(j < i ∧ s.group = none) →
      (markEarlierUngroupedDone i steps).get? j = some s := by
    intro j s hsj hng
    rw [get?_markEarlier, hsj]
    have hcond : (decide (j < i) && s.group.isNone) = false := by
      by_cases hlt : j < i
      · have hgn : s.group ≠ none := fun hc => hng ⟨hlt, hc⟩
        rcases Option.eq_none_or_eq_some s.group with hx | ⟨x, hx⟩
        · exact absurd hx hgn
        · simp [hx]
      · simp [hlt]
    simp only [Option.map_some']
    rw [if_neg (by simp [hcond])]
  have hm2j : ∀ j, j ≠ i →
      (setStatus (markEarlierUngroupedDone i steps) i StepStatus.active).get? j =
        (markEarlierUngroupedDone i steps).get? j := fun j hj => get?_setStatus_ne _ hj
  rcases Option.eq_none_or_eq_some s0.group with hg0 | ⟨g0, hg0⟩
  · have hsc : ((setStatus (markEarlierUngroupedDone i steps) i StepStatus.active).get?
        i).bind (·.group) = none := by
      rw [hm2i]
      show s0.group = none
      exact hg0
    rw [nodeStartedMatched_group_none hsc]
    refine ⟨hstarted, hlen, hm2i, ?_, ?_, ?_, ?_⟩
    · intro j s hlt hsj hgn
      have hji : j ≠ i := by omega
      rw [hm2j j hji]
      exact hmark_none j s hlt hsj hgn
    · intro j s g _ hgeq
      exact absurd (hg0.symm.trans hgeq) (by simp)
    · intro j s hlt hsj hgn
      have hji : j ≠ i := by omega
      refine Or.inl ?_
      rw [hm2j j hji]
      exact hmark_keep j s hsj (fun hc => hgn hc.2)
    · intro j s hji hsj hng _
      rw [hm2j j hji]
      exact hmark_keep j s hsj hng
  · have hsc : ((setStatus (markEarlierUngroupedDone i steps) i StepStatus.active).get?
        i).bind (·.group) = some g0 := by
      rw [hm2i]
      show s0.group = some g0
      exact hg0
    rw [nodeStartedMatched_group_some hsc]
    have hact : ∀ j, (activateGroupPending g0
        (setStatus (markEarlierUngroupedDone i steps) i StepStatus.active)).get? j =
        ((setStatus (markEarlierUngroupedDone i steps) i StepStatus.active).get? j).map
          (fun s => if s.group == some g0 && s.status == .pending then
            { s with status := .active } else s) := fun j => List.get?_map _ _ _
    refine ⟨hstarted, (List.length_map _ _).trans hlen, ?_, ?_, ?_, ?_, ?_⟩
    · rw [hact i, hm2i]
      simp
    · intro j s hlt hsj hgn
      have hji : j ≠ i := by omega
      rw [hact j, hm2j j hji, hmark_none j s hlt hsj hgn]
      simp [hgn]
    · intro j s g hji hgeq hsj hgj hpend
      have hgg : g = g0 := by
        have := hg0.symm.trans hgeq
        injection this with h2
        exact h2.symm
      subst hgg
      rw [hact j, hm2j j hji, hmark_keep j s hsj (fun hc => by
        rw [hgj] at hc
        exact Option.noConfusion hc.2)]
      simp [hgj, hpend]
    · intro j s hlt hsj hgn
      have hji : j ≠ i := by omega
      rw [hact j, hm2j j hji, hmark_keep j s hsj (fun hc => hgn hc.2)]
      by_cases hcond : (s.group == some g0 && s.status == StepStatus.pending) = true
      · refine Or.inr ?_
        simp only [Option.map_some']
        rw [if_pos hcond]
      · refine Or.inl ?_
        simp only [Option.map_some']
        rw [if_neg hcond]
    · intro j s hji hsj hng hnact
      rw [hact j, hm2j j hji, hmark_keep j s hsj hng]
      have hcond : (s.group == some g0 && s.status == StepStatus.pending) = false := by
        rcases Bool.eq_false_or_eq_true (s.group == some g0 && s.status ==
            StepStatus.pending) with hc | hc
        · have hand := hc
          rw [Bool.and_eq_true] at hand
          exfalso
          apply hnact
          refine ⟨?_, ?_, ?_⟩
          · rw [hg0]
            simp
          · rw [hg0]
            simpa using hand.1
          · simpa using hand.2
        · exact hc
      simp only [Option.map_some']
      rw [if_neg (by simp [hcond])]

theorem node_started_spec_witness :
    (handleProgressEvent "started" ""
        [] =
      [⟨"下载PDF", .active, none⟩, ⟨"上传文件", .pending, none⟩,
       ⟨"用户输入", .pending, none⟩, ⟨"Parse File", .pending, some 1⟩,
       ⟨"知识检索", .pending, some 1⟩, ⟨"LLM", .pending, none⟩,
       ⟨"整合输出", .pending, none⟩]) ∧
    (handleProgressEvent "node_started" "Parse File"
        [⟨"下载PDF", .active, none⟩, ⟨"上传文件", .pending, none⟩,
         ⟨"用户输入", .pending, none⟩, ⟨"Parse File", .pending, some 1⟩,
         ⟨"知识检索", .pending, some 1⟩, ⟨"LLM", .pending, none⟩,
         ⟨"整合输出", .pending, none⟩]).get? 3 = some ⟨"Parse File", .active, some 1⟩ ∧
    (handleProgressEvent "node_started" "Parse File"
        [⟨"下载PDF", .active, none⟩, ⟨"上传文件", .pending, none⟩,
         ⟨"用户输入", .pending, none⟩, ⟨"Parse File", .pending, some 1⟩,
         ⟨"知识检索", .pending, some 1⟩, ⟨"LLM", .pending, none⟩,
         ⟨"整合输出", .pending, none⟩]).get? 4 = some ⟨"知识检索", .active, some 1⟩ ∧
    (handleProgressEvent "node_started" "Parse File"
        [⟨"下载PDF", .active, none⟩, ⟨"上传文件", .pending, none⟩,
         ⟨"用户输入", .pending, none⟩, ⟨"Parse File", .pending, some 1⟩,
         ⟨"知识检索", .pending, some 1⟩, ⟨"LLM", .pending, none⟩,
         ⟨"整合输出", .pending, none⟩]).get? 1 = some ⟨"上传文件", .done, none⟩ :=
  ⟨(node_started_spec
      [⟨"下载PDF", .active, none⟩, ⟨"上传文件", .pending, none⟩,
       ⟨"用户输入", .pending, none⟩, ⟨"Parse File", .pending, some 1⟩,
       ⟨"知识检索", .pending, some 1⟩, ⟨"LLM", .pending, none⟩,
       ⟨"整合输出", .pending, none⟩] "Parse File" 3 ⟨"Parse File", .pending, some 1⟩
      (by decide) (by decide)).1 "" [],
   (node_started_spec
      [⟨"下载PDF", .active, none⟩, ⟨"上传文件", .pending, none⟩,
       ⟨"用户输入", .pending, none⟩, ⟨"Parse File", .pending, some 1⟩,
       ⟨"知识检索", .pending, some 1⟩, ⟨"LLM", .pending, none⟩,
       ⟨"整合输出", .pending, none⟩] "Parse File" 3 ⟨"Parse File", .pending, some 1⟩
      (by decide) (by decide)).2.2.1,
   (node_started_spec
      [⟨"下载PDF", .active, none⟩, ⟨"上传文件", .pending, none⟩,
       ⟨"用户输入", .pending, none⟩, ⟨"Parse File", .pending, some 1⟩,
       ⟨"知识检索", .pending, some 1⟩, ⟨"LLM", .pending, none⟩,
       ⟨"整合输出", .pending, none⟩] "Parse File" 3 ⟨"Parse File", .pending, some 1⟩
      (by decide) (by decide)).2.2.2.2.1 4 ⟨"知识检索", .pending, some 1⟩ 1
      (by decide) (by decide) (by decide) (by decide) (by decide),
   (node_started_spec
      [⟨"下载PDF", .active, none⟩, ⟨"上传文件", .pending, none⟩,
       ⟨"用户输入", .pending, none⟩, ⟨"Parse File", .pending, some 1⟩,
       ⟨"知识检索", .pending, some 1⟩, ⟨"LLM", .pending, none⟩,
       ⟨"整合输出", .pending, none⟩] "Parse File" 3 ⟨"Parse File", .pending, some 1⟩
      (by decide) (by decide)).2.2.2.1 1 ⟨"上传文件", .pending, none⟩
      (by decide) (by decide) (by decide)⟩

end PaperInsight
